import Mathlib

/-!
Verification of the vCenterHoundGo graph exporter.

This file gives a shallow embedding, in Lean, of the parts of the source that
the specification's claims are about:

* the in-memory graph store (`graph/graph.go`): `FormatNodeKind`,
  `FormatEdgeKind`, `propsToKey`, `AddEdge`, `EnsureNode`;
* the permission resolver (`collector` package): `parsePrincipal`,
  `isNoAccess`, `getEntityKindAndID`, `processPermission`;
* the signed-request authenticator (`internal/bloodhound/client.go`):
  `signRequest` and `GetDomainMap`;
* the post-process domain-sync loop (`internal/postprocess/processor.go`);
* the cross-source merge loop of `vCenterHoundGo/main.go`;
* the two output writers (`vCenterHoundGo/main.go` and
  `internal/output/writer.go`).

Go maps are modelled as association lists; map iteration appears as a left
fold over the list, and statements that depend on iteration order carry
`Nodup` hypotheses on the key list, mirroring the fact that a Go map holds
each key once.  Go `interface{}` property values are modelled by the
inductive type `Value`, covering the value shapes the program actually
stores (strings, bools, integers and string slices), together with the
`fmt.Sprintf("%v", ...)` rendering used by the edge dedup key.
-/

namespace VCenterHound

/-- Property values stored in node/edge property maps.  The Go code stores
strings, bools, `int`/`int32` numbers and `[]string` slices in its
`map[string]interface{}` properties. -/
inductive Value where
  | str (s : String)
  | bool (b : Bool)
  | int (n : Int)
  | strList (xs : List String)
deriving DecidableEq

/-- Model of `strings.Join(xs, sep)`. -/
def goJoin (sep : String) : List String → String
  | [] => ""
  | [x] => x
  | x :: y :: rest => x ++ sep ++ goJoin sep (y :: rest)

/-- Model of `fmt.Sprintf("%v", v)` for the value shapes in `Value`: strings print
verbatim, bools as `true`/`false`, integers in decimal, and `[]string` as the
space-separated elements in brackets. -/
def goFormat : Value → String
  | .str s => s
  | .bool b => if b then "true" else "false"
  | .int n => toString n
  | .strList xs => "[" ++ goJoin " " xs ++ "]"

/-- Association-list lookup, modelling Go map indexing `m[k]`. -/
def alistLookup {α β : Type} [DecidableEq α] : List (α × β) → α → Option β
  | [], _ => none
  | (k', v) :: rest, k => if k' = k then some v else alistLookup rest k

/-- Association-list insert-or-overwrite, modelling Go map assignment
`m[k] = v`. -/
def upsert {α β : Type} [DecidableEq α] : List (α × β) → α → β → List (α × β)
  | [], k, v => [(k, v)]
  | (k', v') :: rest, k, v =>
    if k' = k then (k, v) :: rest else (k', v') :: upsert rest k v

/-- Byte-order comparison of character lists; on the ASCII strings this
program manipulates it coincides with Go's `sort.Strings` byte order. -/
def charListLe : List Char → List Char → Bool
  | [], _ => true
  | _ :: _, [] => false
  | a :: as, b :: bs =>
    if a.toNat < b.toNat then true
    else if b.toNat < a.toNat then false
    else charListLe as bs

/-- String comparison used for deterministic ordering (`sort.Strings`). -/
def strLe (a b : String) : Bool := charListLe a.toList b.toList

/-- Insert a string into a sorted list (insertion-sort step). -/
def insertStr (x : String) : List String → List String
  | [] => [x]
  | y :: ys => if strLe x y then x :: y :: ys else y :: insertStr x ys

/-- Model of `sort.Strings`: any comparison sort; on duplicate-free inputs the result
is the unique sorted arrangement, so insertion sort is a faithful model. -/
def sortStrings : List String → List String
  | [] => []
  | x :: xs => insertStr x (sortStrings xs)

/-- Go `strings.ToLower`, on the ASCII data this program handles. -/
def lowerS (s : String) : String := (s.toList.map Char.toLower).asString

/-- Go `strings.ToUpper`, on the ASCII data this program handles. -/
def upperS (s : String) : String := (s.toList.map Char.toUpper).asString

/-! ## The graph store (`vCenterHoundGo/graph/graph.go`) -/

/-- A node: `kinds`, immutable `id`, mutable property map. -/
structure GraphNode where
  kinds : List String
  id : String
  properties : List (String × Value)
deriving DecidableEq

/-- An edge of the original collector; `start`/`end` are plain id references
(`map[string]string{"value": id}` in the source). -/
structure GraphEdge where
  kind : String
  startID : String
  endID : String
  properties : List (String × Value)
deriving DecidableEq

/-- The graph store: nodes keyed by id, edges in insertion order, and the
set of edge dedup keys already seen. -/
structure GraphBuilder where
  nodesByID : List (String × GraphNode)
  edges : List GraphEdge
  edgeKeys : List String
deriving DecidableEq

/-- Model of `NewGraphBuilder()`. -/
def NewGraphBuilder : GraphBuilder := ⟨[], [], []⟩

/-- Table `NodeTypeMap` from `graph.go`. -/
def NodeTypeMap : List (String × String) :=
  [("vCenter", "vCenter"), ("RootFolder", "RootFolder"),
   ("Datacenter", "Datacenter"), ("Cluster", "Cluster"),
   ("ESXiHost", "ESXiHost"), ("ResourcePool", "ResourcePool"),
   ("vApp", "vApp"), ("VM", "VM"), ("VMTemplate", "VMTemplate"),
   ("Datastore", "Datastore"), ("DatastoreCluster", "DatastoreCluster"),
   ("Network", "Network"), ("StandardPortgroup", "StandardPortgroup"),
   ("DVSwitch", "DVSwitch"), ("DVPortgroup", "DVPortgroup"),
   ("Principal", "Principal"), ("User", "User"), ("Group", "Group"),
   ("Privilege", "Privilege"), ("Role", "Role"), ("Folder", "Folder"),
   ("IdentityDomain", "IdentityDomain")]

/-- Table `EdgeTypeMap` from `graph.go`. -/
def EdgeTypeMap : List (String × String) :=
  [("CONTAINS", "Contains"), ("HOSTS", "Hosts"),
   ("HAS_PERMISSION", "HasPermission"), ("MEMBER_OF", "MemberOf"),
   ("USES_DATASTORE", "UsesDatastore"), ("USES_NETWORK", "UsesNetwork"),
   ("HAS_DATASTORE", "HasDatastore"), ("HAS_NETWORK", "HasNetwork"),
   ("MOUNTS", "Mounts"), ("HAS_PRIVILEGE", "HasPrivilege")]

/-- The `.`/`-`/space → `_` cleanup inside `FormatNodeKind`
(`strings.ReplaceAll` on single characters). -/
def cleanKindChars (s : String) : String :=
  (s.toList.map (fun c => if c = '.' ∨ c = '-' ∨ c = ' ' then '_' else c)).asString

/-- Model of `FormatNodeKind`: map through `NodeTypeMap` (fall back to the raw kind),
clean punctuation, and prepend the `NodePrefix` constant `"vCenter_"`. -/
def FormatNodeKind (kind : String) : String :=
  "vCenter_" ++ cleanKindChars ((alistLookup NodeTypeMap kind).getD kind)

/-- Model of `FormatEdgeKind`: map through `EdgeTypeMap` (fall back to the raw kind)
and prepend the `EdgePrefix` constant `"vCenter_"`. -/
def FormatEdgeKind (kind : String) : String :=
  "vCenter_" ++ (alistLookup EdgeTypeMap kind).getD kind

/-- Model of `propsToKey`: canonical serialization of an edge property map — entries
sorted by key, each rendered `key:value` with `%v`, joined by `|`; the empty
map serializes to `""`. -/
def propsToKey (props : List (String × Value)) : String :=
  if props.isEmpty then ""
  else
    let keys := sortStrings (props.map Prod.fst)
    goJoin "|"
      (keys.map fun k => k ++ ":" ++ goFormat ((alistLookup props k).getD (.str "")))

/-- The flat dedup key `kind:start:end:propsKey` computed by `AddEdge`. -/
def edgeKey (kind startID endID : String) (props : List (String × Value)) : String :=
  kind ++ ":" ++ startID ++ ":" ++ endID ++ ":" ++ propsToKey props

/-- Model of `AddEdge`: silently drop the edge when its dedup key was already seen,
otherwise record the key and append the edge (with the formatted kind). -/
def AddEdge (gb : GraphBuilder) (kind startID endID : String)
    (properties : List (String × Value)) : GraphBuilder :=
  let ek := edgeKey kind startID endID properties
  if ek ∈ gb.edgeKeys then gb
  else
    { gb with
      edges := gb.edges ++ [⟨FormatEdgeKind kind, startID, endID, properties⟩],
      edgeKeys := ek :: gb.edgeKeys }

/-- The kind-union loop of `EnsureNode`: each incoming kind is formatted and
appended only if not already present. -/
def foldKinds (existing : List String) (kinds : List String) : List String :=
  kinds.foldl
    (fun acc k =>
      let f := FormatNodeKind k
      if f ∈ acc then acc else acc ++ [f])
    existing

/-- The property-update loop of `EnsureNode`: each incoming key overwrites
(`existing.Properties[k] = v`). -/
def updateProps (existing incoming : List (String × Value)) : List (String × Value) :=
  incoming.foldl (fun acc kv => upsert acc kv.1 kv.2) existing

/-- Model of `EnsureNode`: create the node with formatted kinds and the incoming
properties when the id is new; otherwise union the kinds and overwrite the
supplied property keys (last-write-wins). -/
def EnsureNode (gb : GraphBuilder) (kinds : List String) (nodeID : String)
    (properties : List (String × Value)) : GraphBuilder :=
  match alistLookup gb.nodesByID nodeID with
  | some existing =>
    { gb with
      nodesByID := upsert gb.nodesByID nodeID
        ⟨foldKinds existing.kinds kinds, existing.id,
         updateProps existing.properties properties⟩ }
  | none =>
    { gb with
      nodesByID :=
        gb.nodesByID ++ [(nodeID, ⟨kinds.map FormatNodeKind, nodeID, properties⟩)] }

/-- One `EnsureNode` call's arguments for a fixed node id. -/
structure NodeCall where
  kinds : List String
  props : List (String × Value)
deriving DecidableEq

/-- Run a sequence of `EnsureNode` calls all targeting node id `X`. -/
def runEnsureCalls (gb : GraphBuilder) (X : String) (calls : List NodeCall) : GraphBuilder :=
  calls.foldl (fun g c => EnsureNode g c.kinds X c.props) gb


/-! ## Principal parsing and the permission resolver (`collector` package) -/

/-- First-occurrence split of a character list at a separator character,
modelling `strings.SplitN(s, sep, 2)` for a single-character separator:
the part before the first occurrence and everything after it. -/
def splitAtFirst (sep : Char) : List Char → List Char × List Char
  | [] => ([], [])
  | x :: xs =>
    if x = sep then ([], xs)
    else
      let r := splitAtFirst sep xs
      (x :: r.1, r.2)

/-- Character-list form of `parsePrincipal`: split on the first backslash if
present, else on the first `@` (swapping the components), else the whole
string is the username with an empty domain. -/
def parsePrincipalL (l : List Char) : List Char × List Char :=
  if '\\' ∈ l then splitAtFirst '\\' l
  else if '@' ∈ l then
    let p := splitAtFirst '@' l
    (p.2, p.1)
  else ([], l)

/-- Model of `parsePrincipal` (identical in `collector.go` and the
permissions collector): returns `(domain, username)`. -/
def parsePrincipal (principal : String) : String × String :=
  ((parsePrincipalL principal.toList).1.asString,
   (parsePrincipalL principal.toList).2.asString)

/-- Model of `isNoAccess`: lowercase the role name and compare against the three
literal spellings. -/
def isNoAccess (roleName : String) : Bool :=
  let l := lowerS roleName
  l = "no access" ∨ l = "noaccess" ∨ l = "no-access"

/-- Permission role from the authorization manager (`types.AuthorizationRole`). -/
structure AuthorizationRole where
  roleId : Int
  name : String
  privilege : List String
deriving DecidableEq

/-- Privilege description (`types.AuthorizationPrivilege`). -/
structure AuthorizationPrivilege where
  privId : String
  name : String
  privGroupName : String
deriving DecidableEq

/-- Entity reference of a permission (`types.ManagedObjectReference` plus the
result of the `host` property fetch that `getEntityKindAndID` performs only
for bare `ComputeResource` references: `none` models a failed
`RetrieveOne`, `some hosts` a successful one). -/
structure EntityRef where
  refType : String
  moid : String
  hostQueryResult : Option (List String)
deriving DecidableEq

/-- One `types.Permission` record. -/
structure Permission where
  principal : String
  isGroup : Bool
  roleId : Int
  propagate : Bool
  entity : Option EntityRef
deriving DecidableEq

/-- Model of `getEntityKindAndID`: map the managed-object type to a node kind and
canonical id `"{lowercase-type}:{host}:{moid}"`; a bare `ComputeResource`
with at least one host resolves to that first host's id. -/
def getEntityKindAndID (host : String) (ref : EntityRef) : String × String :=
  match ref.refType with
  | "Datacenter" => ("Datacenter", "datacenter:" ++ host ++ ":" ++ ref.moid)
  | "ClusterComputeResource" => ("Cluster", "cluster:" ++ host ++ ":" ++ ref.moid)
  | "HostSystem" => ("ESXiHost", "esxi_host:" ++ host ++ ":" ++ ref.moid)
  | "ComputeResource" =>
    match ref.hostQueryResult with
    | some (h0 :: _) => ("ESXiHost", "esxi_host:" ++ host ++ ":" ++ h0)
    | _ => ("ESXiHost", "esxi_host:" ++ host ++ ":" ++ ref.moid)
  | "VirtualMachine" => ("VM", "vm:" ++ host ++ ":" ++ ref.moid)
  | "Folder" => ("Folder", "folder:" ++ host ++ ":" ++ ref.moid)
  | t => (t, lowerS t ++ ":" ++ host ++ ":" ++ ref.moid)

/-- Canonical id of the principal node (`user:host:principal` or
`group:host:principal`). -/
def principalNodeID (host : String) (perm : Permission) : String :=
  if perm.isGroup then "group:" ++ host ++ ":" ++ perm.principal
  else "user:" ++ host ++ ":" ++ perm.principal

/-- Node kinds for the principal (`Group` or `User`). -/
def principalKinds (perm : Permission) : List String :=
  if perm.isGroup then ["Group"] else ["User"]

/-- Properties passed to `EnsureNode` for the principal node. -/
def principalProps (perm : Permission) : List (String × Value) :=
  [("name", .str perm.principal), ("isGroup", .bool perm.isGroup),
   ("domain", .str (parsePrincipal perm.principal).1),
   ("username", .str (parsePrincipal perm.principal).2)]

/-- Role name resolved from the `rolesByID` map, defaulting to `""` when the
role id is unknown (matching the `roleName := ""` initialisation). -/
def resolvedRoleName (roles : List (Int × AuthorizationRole)) (rid : Int) : String :=
  match alistLookup roles rid with
  | some r => r.name
  | none => ""

/-- Set-then-sort used for the distinct privilege-group names. -/
def sortedDedup (l : List String) : List String :=
  sortStrings (l.foldl (fun acc x => if x ∈ acc then acc else acc ++ [x]) [])

/-- Privilege aggregation of `processPermission`: ids, display names (raw id
fallback), distinct sorted group names, and the privilege count. -/
structure RoleInfo where
  privIds : List String
  privNames : List String
  privGroups : List String
  privCount : Nat
deriving DecidableEq

/-- Aggregate privilege information for a role id, as `processPermission`
does once the role is found; an unknown role id leaves everything empty. -/
def rolePrivInfo (roles : List (Int × AuthorizationRole))
    (privMap : List (String × AuthorizationPrivilege)) (rid : Int) : RoleInfo :=
  match alistLookup roles rid with
  | none => ⟨[], [], [], 0⟩
  | some r =>
    ⟨r.privilege,
     r.privilege.map (fun pid =>
       match alistLookup privMap pid with
       | some p => p.name
       | none => pid),
     sortedDedup (r.privilege.filterMap
       (fun pid => (alistLookup privMap pid).map AuthorizationPrivilege.privGroupName)),
     r.privilege.length⟩

/-- The `HAS_PERMISSION` edge property map built by `processPermission`. -/
def hasPermissionProps (roles : List (Int × AuthorizationRole))
    (privMap : List (String × AuthorizationPrivilege)) (perm : Permission) :
    List (String × Value) :=
  let info := rolePrivInfo roles privMap perm.roleId
  [("roleId", .int perm.roleId),
   ("roleName", .str (resolvedRoleName roles perm.roleId)),
   ("propagate", .bool perm.propagate),
   ("privilegeIds", .strList info.privIds),
   ("privilegeNames", .strList info.privNames),
   ("privilegeGroups", .strList info.privGroups),
   ("privilegeCount", .int info.privCount)]

/-- Model of `processPermission`: ensure the principal node, drop the assignment
after that when the resolved role is a no-access role or the entity is
absent, otherwise ensure the entity node (placeholder `name` only when the
node does not exist yet) and add the `HAS_PERMISSION` edge. -/
def processPermission (host : String) (gb : GraphBuilder) (perm : Permission)
    (roles : List (Int × AuthorizationRole))
    (privMap : List (String × AuthorizationPrivilege)) : GraphBuilder :=
  let gb1 := EnsureNode gb (principalKinds perm) (principalNodeID host perm)
    (principalProps perm)
  if isNoAccess (resolvedRoleName roles perm.roleId) then gb1
  else
    match perm.entity with
    | none => gb1
    | some ref =>
      let ek := getEntityKindAndID host ref
      let nodeProps :=
        if (alistLookup gb1.nodesByID ek.2).isSome then
          [("moid", Value.str ref.moid)]
        else
          [("moid", Value.str ref.moid), ("name", Value.str ref.moid)]
      let gb2 := EnsureNode gb1 [ek.1] ek.2 nodeProps
      AddEdge gb2 "HAS_PERMISSION" (principalNodeID host perm) ek.2
        (hasPermissionProps roles privMap perm)

/-! ## Signed-request authenticator (`internal/bloodhound/client.go`) -/

/-- Bytes of an ASCII string (`[]byte(s)`); on the ASCII data signed by this
client the character codes are exactly the UTF-8 bytes. -/
def strBytes (s : String) : List Nat := s.toList.map Char.toNat

/-- The signed URI: `req.URL.Path`, plus `"?" + RawQuery` when a query is
present. -/
def signedUri (path rawQuery : String) : String :=
  if rawQuery ≠ "" then path ++ "?" ++ rawQuery else path

/-- Digest `d1 = HMAC-SHA256(key = secret, msg = method + uri)`.  The HMAC
primitive itself is a parameter `hmac : key → msg → digest`; every claim
about the signer is about how the three digests chain, not about SHA-256
internals. -/
def computeD1 (hmac : List Nat → List Nat → List Nat) (secret method uri : String) :
    List Nat :=
  hmac (strBytes secret) (strBytes (method ++ uri))

/-- Digest `d2 = HMAC-SHA256(key = d1, msg = ts[0:13])` — the timestamp
truncated to date+hour granularity. -/
def computeD2 (hmac : List Nat → List Nat → List Nat) (secret method uri ts : String) :
    List Nat :=
  hmac (computeD1 hmac secret method uri) ((ts.toList.take 13).map Char.toNat)

/-- Digest `d3`: HMAC keyed by `d2` over the body bytes; with no body the
HMAC is still computed, over zero input bytes. -/
def computeD3 (hmac : List Nat → List Nat → List Nat) (d2 : List Nat)
    (body : Option (List Nat)) : List Nat :=
  match body with
  | some bodyBytes => hmac d2 bodyBytes
  | none => hmac d2 []

/-- Base64 alphabet. -/
def base64Table : List Char :=
  "ABCDEFGHIJKLMNOPQRSTUVWXYZabcdefghijklmnopqrstuvwxyz0123456789+/".toList

/-- One base64 output character. -/
def b64Char (n : Nat) : Char := base64Table.getD n 'A'

/-- Standard base64 encoding of a byte list
(`base64.StdEncoding.EncodeToString`). -/
def base64Encode : List Nat → String
  | [] => ""
  | [a] =>
    String.mk [b64Char (a / 4 % 64), b64Char (a % 4 * 16), '=', '=']
  | [a, b] =>
    String.mk [b64Char (a / 4 % 64), b64Char (a % 4 * 16 + b / 16 % 16),
      b64Char (b % 16 * 4), '=']
  | a :: b :: c :: rest =>
    String.mk [b64Char (a / 4 % 64), b64Char (a % 4 * 16 + b / 16 % 16),
      b64Char (b % 16 * 4 + c / 64 % 4), b64Char (c % 64)] ++ base64Encode rest

/-- The three headers set by `signRequest`. -/
structure SignedHeaders where
  authorization : String
  requestDate : String
  signature : String
deriving DecidableEq

/-- Model of `signRequest`: chain `d1`, `d2`, `d3` and set the headers; a
timestamp shorter than 13 characters is a signing error (`none`). -/
def signRequest (hmac : List Nat → List Nat → List Nat)
    (keyId secret method path rawQuery : String) (body : Option (List Nat))
    (ts : String) : Option SignedHeaders :=
  if ts.toList.length < 13 then none
  else
    some
      ⟨"bhesignature " ++ keyId, ts,
       base64Encode
         (computeD3 hmac (computeD2 hmac secret method (signedUri path rawQuery) ts)
           body)⟩

/-! ## Domain map and the post-process sync loop -/

/-- First dot-delimited label of the uppercased candidate name —
`strings.Split(strings.ToUpper(name), ".")[0]` (the NetBIOS heuristic). -/
def netbiosOf (nm : String) : String :=
  ((upperS nm).toList.takeWhile (· ≠ '.')).asString

/-- Model of `GetDomainMap`: build `map[NetBIOS]FQDN` from the candidate domain
names, uppercasing each FQDN and keying it by its first dot-delimited
label (later candidates overwrite earlier ones with the same key). -/
def getDomainMap (names : List String) : List (String × String) :=
  names.foldl (fun m nm => upsert m (netbiosOf nm) (upperS nm)) []

/-- A node as read back from the exported JSON in process mode. -/
structure PNode where
  kinds : List String
  id : String
  properties : List (String × Value)
deriving DecidableEq

/-- An edge emitted through `AddRawEdgeWithMatch`, carrying the optional
`match_by` discriminators for both endpoints. -/
structure SyncEdge where
  kind : String
  startValue : String
  startMatchBy : String
  endValue : String
  endMatchBy : String
deriving DecidableEq

/-- String read of a property (`node.Properties[k].(string)`): a failed type
assertion yields `""`. -/
def getStringProp (props : List (String × Value)) (k : String) : String :=
  match alistLookup props k with
  | some (.str s) => s
  | _ => ""

/-- Whether the node carries the `vCenter_User` kind. -/
def isUserNode (n : PNode) : Bool := "vCenter_User" ∈ n.kinds

/-- Whether the node carries the `vCenter_Group` kind. -/
def isGroupNode (n : PNode) : Bool := "vCenter_Group" ∈ n.kinds

/-- The sync edges that `Processor.Run` emits for one node of the loaded
graph: skip non-principal nodes and nodes with an empty `name` or `domain`
property; on a domain-map hit build the foreign principal id
`UPPER(username)@FQDN` and emit one edge matched by the `name` join key
(the `User` branch wins when a node has both kinds). -/
def syncEdgesForNode (domainMap : List (String × String)) (n : PNode) : List SyncEdge :=
  if ¬ isUserNode n ∧ ¬ isGroupNode n then []
  else
    let name := getStringProp n.properties "name"
    let username := getStringProp n.properties "username"
    let domain := getStringProp n.properties "domain"
    if name = "" ∨ domain = "" then []
    else
      match alistLookup domainMap (upperS domain) with
      | none => []
      | some fqdn =>
        let adPrincipalID := upperS username ++ "@" ++ fqdn
        if isUserNode n then [⟨"SyncsTovCenterUser", adPrincipalID, "name", n.id, ""⟩]
        else [⟨"SyncsTovCenterGroup", adPrincipalID, "name", n.id, ""⟩]

/-! ## Cross-source merge (`vCenterHoundGo/main.go`) -/

/-- Property merge of the manual node merge: copy only the keys absent from
the target node's properties (first-source-wins). -/
def mergeProps (existing incoming : List (String × Value)) : List (String × Value) :=
  incoming.foldl
    (fun acc kv =>
      if (alistLookup acc kv.1).isSome then acc else upsert acc kv.1 kv.2)
    existing

/-- Node merge step for one node of the other builder: merge properties into
an existing node with the same id, or copy the node verbatim. -/
def mergeNodeStep (acc : List (String × GraphNode)) (node : GraphNode) :
    List (String × GraphNode) :=
  match alistLookup acc node.id with
  | some existing =>
    upsert acc node.id
      ⟨existing.kinds, existing.id, mergeProps existing.properties node.properties⟩
  | none => acc ++ [(node.id, node)]

/-- The merge loop of `main.go`: fold every node of the other builder into
the target's node map, and append the other builder's edges directly,
without consulting or updating the dedup key set. -/
def mergeSourceGraphs (target : GraphBuilder) (otherNodes : List GraphNode)
    (otherEdges : List GraphEdge) : GraphBuilder :=
  { nodesByID := otherNodes.foldl mergeNodeStep target.nodesByID,
    edges := target.edges ++ otherEdges,
    edgeKeys := target.edgeKeys }

/-! ## Output writers -/

/-- The UTF-8 byte-order mark prepended by the legacy collect-mode writer. -/
def bomBytes : List Nat := [0xEF, 0xBB, 0xBF]

/-- File bytes written by `vCenterHoundGo/main.go`: the JSON encoder's
output (passed in as `encoded`) with the BOM prepended. -/
def legacyMainWriteBytes (encoded : List Nat) : List Nat := bomBytes ++ encoded

/-- File bytes written by `internal/output/writer.go`'s `WriteToFile`,
used by both the collect and the process mode of the two-mode binary: the
JSON encoder's output is written unchanged — no BOM is prepended. -/
def writeToFileBytes (encoded : List Nat) : List Nat := encoded

/-! ## Spec-side predicate for the no-access rule (claim wording) -/

/-- Case-fold and strip punctuation, following the claim's wording for the
no-access rule ("case-folded and punctuation-stripped"): lowercase the
string and keep only alphanumeric characters.  This is the spec-side
comparator; the source's own check is `isNoAccess`. -/
def stripCaseFold (s : String) : String :=
  ((lowerS s).toList.filter Char.isAlphanum).asString

/-- The claim-side no-access predicate: the role display name, case-folded
and punctuation-stripped, equals "no access" treated the same way. -/
def specNoAccess (s : String) : Bool :=
  stripCaseFold s = stripCaseFold "no access"

/-- The value supplied for `key` by the last call in the sequence whose
properties contain `key` (`none` when no call ever supplied it). -/
def lastSupplied (key : String) (calls : List NodeCall) : Option Value :=
  calls.foldl
    (fun acc c =>
      match alistLookup c.props key with
      | some v => some v
      | none => acc)
    none

/-! ## Helper lemmas: sorting -/

theorem insertStr_perm (x : String) (l : List String) : (insertStr x l).Perm (x :: l) := by
  induction l with
  | nil => exact List.Perm.refl _
  | cons y ys ih =>
    simp only [insertStr]
    split
    · exact List.Perm.refl _
    · exact (ih.cons y).trans (List.Perm.swap x y ys)

theorem sortStrings_perm (l : List String) : (sortStrings l).Perm l := by
  induction l with
  | nil => exact List.Perm.refl _
  | cons x xs ih => exact (insertStr_perm x (sortStrings xs)).trans (ih.cons x)

theorem charListLe_total (a b : List Char) :
    charListLe a b = true ∨ charListLe b a = true := by
  induction a generalizing b with
  | nil => left; rfl
  | cons x xs ih =>
    cases b with
    | nil => right; rfl
    | cons y ys =>
      by_cases h1 : x.toNat < y.toNat
      · left; simp [charListLe, h1]
      · by_cases h2 : y.toNat < x.toNat
        · right; simp [charListLe, h1, h2]
        · rcases ih ys with h | h
          · left; simp [charListLe, h1, h2, h]
          · right; simp [charListLe, h1, h2, h]

theorem charListLe_antisymm (a b : List Char)
    (h1 : charListLe a b = true) (h2 : charListLe b a = true) : a = b := by
  induction a generalizing b with
  | nil =>
    cases b with
    | nil => rfl
    | cons y ys => simp [charListLe] at h2
  | cons x xs ih =>
    cases b with
    | nil => simp [charListLe] at h1
    | cons y ys =>
      by_cases hxy : x.toNat < y.toNat
      · have hyx : ¬ y.toNat < x.toNat := by omega
        simp [charListLe, hxy, hyx] at h2
      · by_cases hyx : y.toNat < x.toNat
        · simp [charListLe, hxy, hyx] at h1
        · have hx : x = y := by
            have hn : x.toNat = y.toNat := by omega
            exact Char.eq_of_val_eq (UInt32.ext hn)
          subst hx
          simp only [charListLe, hxy, if_false, if_neg hxy] at h1 h2
          exact congrArg (x :: ·) (ih ys h1 h2)

theorem strLe_total (a b : String) : strLe a b = true ∨ strLe b a = true :=
  charListLe_total a.toList b.toList

theorem string_toList_inj (a b : String) (h : a.toList = b.toList) : a = b := by
  cases a; cases b; simpa [String.toList] using congrArg String.mk h

theorem strLe_antisymm (a b : String) (h1 : strLe a b = true) (h2 : strLe b a = true) :
    a = b :=
  string_toList_inj a b (charListLe_antisymm _ _ h1 h2)

theorem charListLe_trans (a b c : List Char)
    (h1 : charListLe a b = true) (h2 : charListLe b c = true) :
    charListLe a c = true := by
  induction a generalizing b c with
  | nil => rfl
  | cons x xs ih =>
    cases b with
    | nil => simp [charListLe] at h1
    | cons y ys =>
      cases c with
      | nil => simp [charListLe] at h2
      | cons z zs =>
        by_cases hxy : x.toNat < y.toNat
        · by_cases hyz : y.toNat < z.toNat
          · have : x.toNat < z.toNat := by omega
            simp [charListLe, this]
          · by_cases hzy : z.toNat < y.toNat
            · simp [charListLe, hyz, hzy] at h2
            · have : x.toNat < z.toNat := by omega
              simp [charListLe, this]
        · by_cases hyx : y.toNat < x.toNat
          · simp [charListLe, hxy, hyx] at h1
          · by_cases hyz : y.toNat < z.toNat
            · have : x.toNat < z.toNat := by omega
              simp [charListLe, this]
            · by_cases hzy : z.toNat < y.toNat
              · simp [charListLe, hyz, hzy] at h2
              · have hxz : ¬ x.toNat < z.toNat := by omega
                have hzx : ¬ z.toNat < x.toNat := by omega
                simp only [charListLe, if_neg hxy, if_neg hyx] at h1
                simp only [charListLe, if_neg hyz, if_neg hzy] at h2
                simp only [charListLe, if_neg hxz, if_neg hzx]
                exact ih ys zs h1 h2

theorem strLe_trans (a b c : String) (h1 : strLe a b = true) (h2 : strLe b c = true) :
    strLe a c = true :=
  charListLe_trans a.toList b.toList c.toList h1 h2

theorem sorted_insertStr (x : String) (l : List String)
    (h : List.Sorted (fun a b => strLe a b = true) l) :
    List.Sorted (fun a b => strLe a b = true) (insertStr x l) := by
  induction l with
  | nil => simp [insertStr]
  | cons y ys ih =>
    simp only [insertStr]
    split
    · rename_i hxy
      refine List.sorted_cons.2 ⟨?_, h⟩
      intro b hb
      rcases List.mem_cons.1 hb with hb | hb
      · exact hb ▸ hxy
      · rcases List.sorted_cons.1 h with ⟨hy, _⟩
        exact strLe_trans x y b hxy (hy b hb)
    · rename_i hxy
      rcases List.sorted_cons.1 h with ⟨hy, hys⟩
      refine List.sorted_cons.2 ⟨?_, ih hys⟩
      intro b hb
      have hb2 := (insertStr_perm x ys).mem_iff.1 hb
      rcases List.mem_cons.1 hb2 with hb3 | hb3
      · subst hb3
        rcases strLe_total b y with h3 | h3
        · exact absurd h3 (by simpa using hxy)
        · exact h3
      · exact hy b hb3

theorem sorted_sortStrings (l : List String) :
    List.Sorted (fun a b => strLe a b = true) (sortStrings l) := by
  induction l with
  | nil => simp [sortStrings]
  | cons x xs ih => exact sorted_insertStr x (sortStrings xs) ih

theorem sortStrings_eq_of_perm (l1 l2 : List String) (h : l1.Perm l2) :
    sortStrings l1 = sortStrings l2 := by
  haveI : IsAntisymm String (fun a b => strLe a b = true) :=
    ⟨fun a b ha hb => strLe_antisymm a b ha hb⟩
  exact List.eq_of_perm_of_sorted
    (((sortStrings_perm l1).trans h).trans (sortStrings_perm l2).symm)
    (sorted_sortStrings l1) (sorted_sortStrings l2)

/-! ## Helper lemmas: association lists -/

theorem alistLookup_append {α β : Type} [DecidableEq α] (l1 l2 : List (α × β)) (k : α) :
    alistLookup (l1 ++ l2) k =
      match alistLookup l1 k with
      | some v => some v
      | none => alistLookup l2 k := by
  induction l1 with
  | nil => simp [alistLookup]
  | cons p rest ih =>
    by_cases h : p.1 = k
    · simp [alistLookup, h]
    · simpa [alistLookup, h] using ih

theorem alistLookup_upsert {α β : Type} [DecidableEq α] (l : List (α × β)) (k : α) (v : β)
    (k' : α) :
    alistLookup (upsert l k v) k' = if k = k' then some v else alistLookup l k' := by
  induction l with
  | nil => simp [upsert, alistLookup]
  | cons p rest ih =>
    by_cases h : p.1 = k
    · by_cases h' : k = k'
      · simp [upsert, alistLookup, h, h']
      · simp [upsert, alistLookup, h, h', h ▸ h']
    · by_cases h' : p.1 = k'
      · have hkk : ¬ k = k' := fun he => h (he ▸ h')
        have hk2 : ¬ k' = k := fun he => hkk he.symm
        simp [upsert, alistLookup, h, h', hkk, hk2]
      · simpa [upsert, alistLookup, h, h'] using ih

theorem alistLookup_eq_none_iff {α β : Type} [DecidableEq α] (l : List (α × β)) (k : α) :
    alistLookup l k = none ↔ k ∉ l.map Prod.fst := by
  induction l with
  | nil => simp [alistLookup]
  | cons p rest ih =>
    by_cases h : p.1 = k
    · simp [alistLookup, h]
    · have h2 : ¬ k = p.1 := fun he => h he.symm
      simp [alistLookup, h, ih, h2]

theorem alistLookup_eq_some_of_mem {α β : Type} [DecidableEq α]
    (l : List (α × β)) (k : α) (v : β)
    (hnd : (l.map Prod.fst).Nodup) (hm : (k, v) ∈ l) :
    alistLookup l k = some v := by
  induction l with
  | nil => simp at hm
  | cons p rest ih =>
    rcases List.mem_cons.1 hm with he | hm'
    · simp [alistLookup, ← he]
    · have hk : p.1 ≠ k := by
        intro hpk
        have hmem : k ∈ rest.map Prod.fst := List.mem_map.2 ⟨(k, v), hm', rfl⟩
        simp only [List.map_cons, List.nodup_cons] at hnd
        exact hnd.1 (hpk ▸ hmem)
      simp only [alistLookup, if_neg hk]
      exact ih (by simpa using hnd.of_cons) hm'

theorem mem_of_alistLookup_eq_some {α β : Type} [DecidableEq α]
    (l : List (α × β)) (k : α) (v : β) (h : alistLookup l k = some v) : (k, v) ∈ l := by
  induction l with
  | nil => simp [alistLookup] at h
  | cons p rest ih =>
    by_cases hk : p.1 = k
    · simp only [alistLookup, if_pos hk] at h
      cases h
      have hpe : (k, p.2) = p := by
        cases p
        simpa using hk.symm
      exact hpe ▸ List.mem_cons_self _ _
    · simp only [alistLookup, if_neg hk] at h
      exact List.mem_cons.2 (Or.inr (ih h))

theorem alistLookup_eq_of_perm {α β : Type} [DecidableEq α]
    (l1 l2 : List (α × β)) (hp : l1.Perm l2) (hnd : (l1.map Prod.fst).Nodup) (k : α) :
    alistLookup l1 k = alistLookup l2 k := by
  have hnd2 : (l2.map Prod.fst).Nodup := ((hp.map Prod.fst).nodup_iff).1 hnd
  cases hv : alistLookup l1 k with
  | some v =>
    exact (alistLookup_eq_some_of_mem l2 k v hnd2
      (hp.mem_iff.1 (mem_of_alistLookup_eq_some l1 k v hv))).symm
  | none =>
    have := (alistLookup_eq_none_iff l1 k).1 hv
    have h2 : k ∉ l2.map Prod.fst := fun hm =>
      this (((hp.map Prod.fst).mem_iff).2 hm)
    exact ((alistLookup_eq_none_iff l2 k).2 h2).symm

/-! ## Helper lemmas: string lengths and joins -/

theorem goJoin_length (sep : String) (xs : List String) :
    (goJoin sep xs).length =
      (xs.map String.length).sum + sep.length * (xs.length - 1) := by
  induction xs with
  | nil => simp [goJoin]
  | cons x rest ih =>
    cases rest with
    | nil => simp [goJoin]
    | cons y t =>
      simp only [goJoin, String.length_append, ih, List.map_cons, List.sum_cons,
        List.length_cons, Nat.add_sub_cancel]
      ring

/-! ## Helper lemmas: first-occurrence splitting -/

theorem splitAtFirst_spec (c : Char) (a b : List Char) (h : c ∉ a) :
    splitAtFirst c (a ++ c :: b) = (a, b) := by
  induction a with
  | nil => simp [splitAtFirst]
  | cons x xs ih =>
    have hx : x ≠ c := fun he => h (he ▸ List.mem_cons_self x xs)
    have hxs : c ∉ xs := fun hm => h (List.mem_cons.2 (Or.inr hm))
    simp [splitAtFirst, hx, ih hxs]

/-! ## Claim C5 -/

/-- C5: `parsePrincipal` splits on the first backslash into
`(domain, username)` when a backslash is present; otherwise, when an `@` is
present, it returns the suffix after the first `@` as the domain and the
prefix as the username; otherwise the domain is empty and the username is
the whole principal.  In particular `"CORP\jdoe"` parses to
`("CORP", "jdoe")`, `"jdoe@corp.local"` to `("corp.local", "jdoe")` and
`"jdoe"` to `("", "jdoe")`. -/
theorem parsePrincipal_spec :
    (∀ a b : List Char, '\\' ∉ a →
        parsePrincipalL (a ++ '\\' :: b) = (a, b))
    ∧ (∀ a b : List Char, '\\' ∉ a ++ '@' :: b → '@' ∉ a →
        parsePrincipalL (a ++ '@' :: b) = (b, a))
    ∧ (∀ l : List Char, '\\' ∉ l → '@' ∉ l → parsePrincipalL l = ([], l))
    ∧ parsePrincipal "CORP\\jdoe" = ("CORP", "jdoe")
    ∧ parsePrincipal "jdoe@corp.local" = ("corp.local", "jdoe")
    ∧ parsePrincipal "jdoe" = ("", "jdoe") := by
  refine ⟨?_, ?_, ?_, by decide, by decide, by decide⟩
  · intro a b h
    have hmem : '\\' ∈ a ++ '\\' :: b :=
      List.mem_append.2 (Or.inr (List.mem_cons_self _ _))
    simp [parsePrincipalL, hmem, splitAtFirst_spec '\\' a b h]
  · intro a b hbs hat
    have hmem : '@' ∈ a ++ '@' :: b :=
      List.mem_append.2 (Or.inr (List.mem_cons_self _ _))
    simp [parsePrincipalL, hbs, hmem, splitAtFirst_spec '@' a b hat]
  · intro l h1 h2
    simp [parsePrincipalL, h1, h2]

/-- Witness for C5: the general split equations evaluated at concrete
principals. -/
theorem parsePrincipal_spec_witness :
    (('\\' ∉ "CORP".toList) ∧
      parsePrincipalL ("CORP".toList ++ '\\' :: "jdoe".toList) =
        ("CORP".toList, "jdoe".toList))
    ∧ (('\\' ∉ "jdoe".toList ++ '@' :: "corp.local".toList) ∧ ('@' ∉ "jdoe".toList) ∧
      parsePrincipalL ("jdoe".toList ++ '@' :: "corp.local".toList) =
        ("corp.local".toList, "jdoe".toList))
    ∧ (('\\' ∉ "jdoe".toList) ∧ ('@' ∉ "jdoe".toList) ∧
      parsePrincipalL "jdoe".toList = ([], "jdoe".toList)) :=
  ⟨⟨by decide, parsePrincipal_spec.1 _ _ (by decide)⟩,
   ⟨by decide, by decide, parsePrincipal_spec.2.1 _ _ (by decide) (by decide)⟩,
   ⟨by decide, by decide, parsePrincipal_spec.2.2.1 _ (by decide) (by decide)⟩⟩

/-! ## Claim C9 -/

/-- C9 (amended): only the legacy single-mode binary's writer
(`vCenterHoundGo/main.go`) prepends the UTF-8 byte-order mark, so its files
start with bytes `EF BB BF`; `WriteToFile` of `internal/output/writer.go`
— the writer used by both the collect and the process mode of the two-mode
binary — writes the JSON encoder's bytes unchanged, with no BOM. -/
theorem writeBytes_bom (encoded : List Nat) :
    legacyMainWriteBytes encoded = bomBytes ++ encoded
    ∧ (legacyMainWriteBytes encoded).take 3 = [0xEF, 0xBB, 0xBF]
    ∧ writeToFileBytes encoded = encoded :=
  ⟨rfl, rfl, rfl⟩

/-- Counterexample for C9 as stated: the JSON document produced by
`json.Encoder` starts with the byte of `'{'` (`0x7B`); `WriteToFile` writes
those bytes unchanged, so the file's first three bytes are not the BOM. -/
theorem writeBytes_bom_counterexample :
    writeToFileBytes [0x7B, 0x0A, 0x7D] = [0x7B, 0x0A, 0x7D]
    ∧ (writeToFileBytes [0x7B, 0x0A, 0x7D]).take 3 ≠ [0xEF, 0xBB, 0xBF] := by
  exact ⟨rfl, by decide⟩

/-! ## Claim C10 -/

/-- C10: the flat dedup key identifies some distinct
`(kind, start, end, properties)` quadruples, because ids may contain `:`
and property values may contain `|` or `:`; on such colliding inputs the
second `AddEdge` call is silently dropped, so the store's same-edge
relation is strictly coarser than equality of the canonical 4-tuple. -/
theorem edgeKey_collision :
    edgeKey "A" "b:c" "d" [] = edgeKey "A:b" "c" "d" []
    ∧ ("A", "b:c", "d") ≠ ("A:b", "c", "d")
    ∧ AddEdge (AddEdge NewGraphBuilder "A" "b:c" "d" []) "A:b" "c" "d" [] =
        AddEdge NewGraphBuilder "A" "b:c" "d" []
    ∧ (AddEdge (AddEdge NewGraphBuilder "A" "b:c" "d" []) "A:b" "c" "d" []).edges.length = 1
    ∧ propsToKey [("a", Value.str "1|b:2")] =
        propsToKey [("a", Value.str "1"), ("b", Value.str "2")]
    ∧ [("a", Value.str "1|b:2")] ≠ [("a", Value.str "1"), ("b", Value.str "2")]
    ∧ edgeKey "E" "s" "t" [("a", Value.str "1|b:2")] =
        edgeKey "E" "s" "t" [("a", Value.str "1"), ("b", Value.str "2")]
    ∧ (AddEdge (AddEdge NewGraphBuilder "E" "s" "t" [("a", Value.str "1|b:2")])
        "E" "s" "t" [("a", Value.str "1"), ("b", Value.str "2")]).edges.length = 1 := by
  refine ⟨by decide, by decide, by decide, by decide, by decide, by decide, by decide, by decide⟩

/-! ## Claim C4 -/

theorem ensureNode_edges (gb : GraphBuilder) (kinds : List String) (nodeID : String)
    (props : List (String × Value)) :
    (EnsureNode gb kinds nodeID props).edges = gb.edges ∧
    (EnsureNode gb kinds nodeID props).edgeKeys = gb.edgeKeys := by
  unfold EnsureNode
  cases alistLookup gb.nodesByID nodeID <;> exact ⟨rfl, rfl⟩

/-- C4 (amended): a permission assignment whose resolved role display name,
lowercased, is exactly one of `"no access"`, `"noaccess"`, `"no-access"` is
dropped after the principal `EnsureNode` step: no edge is recorded and the
graph equals the store obtained by just ensuring the principal node (the
entity node is never touched; the principal node mutation does happen,
because it precedes the role check). -/
theorem noAccess_drop (host : String) (gb : GraphBuilder) (perm : Permission)
    (roles : List (Int × AuthorizationRole))
    (privMap : List (String × AuthorizationPrivilege))
    (h : isNoAccess (resolvedRoleName roles perm.roleId) = true) :
    processPermission host gb perm roles privMap =
      EnsureNode gb (principalKinds perm) (principalNodeID host perm)
        (principalProps perm)
    ∧ (processPermission host gb perm roles privMap).edges = gb.edges
    ∧ (processPermission host gb perm roles privMap).edgeKeys = gb.edgeKeys := by
  have h1 : processPermission host gb perm roles privMap =
      EnsureNode gb (principalKinds perm) (principalNodeID host perm)
        (principalProps perm) := by
    simp [processPermission, h]
  refine ⟨h1, ?_, ?_⟩
  · rw [h1]; exact (ensureNode_edges gb _ _ _).1
  · rw [h1]; exact (ensureNode_edges gb _ _ _).2

/-- Witness for C4's amended theorem at a concrete no-access assignment. -/
theorem noAccess_drop_witness :
    isNoAccess (resolvedRoleName [((5 : Int), ⟨5, "No Access", ["Priv.A"]⟩)] 5) = true
    ∧ (processPermission "vc1" NewGraphBuilder
        ⟨"CORP\\admins", true, 5, true, some ⟨"VirtualMachine", "vm-1", none⟩⟩
        [((5 : Int), ⟨5, "No Access", ["Priv.A"]⟩)] [] =
      EnsureNode NewGraphBuilder
        (principalKinds ⟨"CORP\\admins", true, 5, true, some ⟨"VirtualMachine", "vm-1", none⟩⟩)
        (principalNodeID "vc1" ⟨"CORP\\admins", true, 5, true, some ⟨"VirtualMachine", "vm-1", none⟩⟩)
        (principalProps ⟨"CORP\\admins", true, 5, true, some ⟨"VirtualMachine", "vm-1", none⟩⟩)
      ∧ (processPermission "vc1" NewGraphBuilder
          ⟨"CORP\\admins", true, 5, true, some ⟨"VirtualMachine", "vm-1", none⟩⟩
          [((5 : Int), ⟨5, "No Access", ["Priv.A"]⟩)] []).edges = NewGraphBuilder.edges
      ∧ (processPermission "vc1" NewGraphBuilder
          ⟨"CORP\\admins", true, 5, true, some ⟨"VirtualMachine", "vm-1", none⟩⟩
          [((5 : Int), ⟨5, "No Access", ["Priv.A"]⟩)] []).edgeKeys = NewGraphBuilder.edgeKeys) :=
  ⟨by decide, noAccess_drop "vc1" NewGraphBuilder _ _ _ (by decide)⟩

/-- Counterexample for C4 as stated: with a fresh store and a `"No Access"`
role, processing still creates the principal node, so the store's nodes
are not unchanged; and a role named `"no_access"` — a case/punctuation
variant covered by the claim's predicate — is not matched by the code's
three-literal check, so processing records a `HasPermission` edge. -/
theorem noAccess_drop_counterexample :
    (specNoAccess (resolvedRoleName [((1 : Int), ⟨1, "No Access", []⟩)] 1) = true
      ∧ (processPermission "vc1" NewGraphBuilder
          ⟨"alice", false, 1, true, some ⟨"VirtualMachine", "vm-1", none⟩⟩
          [((1 : Int), ⟨1, "No Access", []⟩)] []).nodesByID ≠ NewGraphBuilder.nodesByID)
    ∧ (specNoAccess (resolvedRoleName [((1 : Int), ⟨1, "no_access", []⟩)] 1) = true
      ∧ (processPermission "vc1" NewGraphBuilder
          ⟨"alice", false, 1, true, some ⟨"VirtualMachine", "vm-1", none⟩⟩
          [((1 : Int), ⟨1, "no_access", []⟩)] []).edges ≠ NewGraphBuilder.edges) :=
  ⟨⟨by decide, by decide⟩, ⟨by decide, by decide⟩⟩

/-! ## Claim C2: kind-union machinery -/

theorem foldKinds_cons (acc : List String) (k : String) (ks : List String) :
    foldKinds acc (k :: ks) =
      foldKinds (if FormatNodeKind k ∈ acc then acc else acc ++ [FormatNodeKind k]) ks := rfl

theorem mem_foldKinds (ks : List String) (acc : List String) (s : String) :
    s ∈ foldKinds acc ks ↔ s ∈ acc ∨ ∃ k ∈ ks, FormatNodeKind k = s := by
  induction ks generalizing acc with
  | nil => simp [foldKinds]
  | cons k ks ih =>
    rw [foldKinds_cons]
    by_cases h : FormatNodeKind k ∈ acc
    · rw [if_pos h, ih]
      have hf : FormatNodeKind k = s → s ∈ acc := fun he => he ▸ h
      simp only [List.exists_mem_cons_iff]
      tauto
    · rw [if_neg h, ih]
      simp only [List.mem_append, List.mem_singleton, List.exists_mem_cons_iff]
      tauto

theorem foldKinds_nodup (ks : List String) (acc : List String) (h : acc.Nodup) :
    (foldKinds acc ks).Nodup := by
  induction ks generalizing acc with
  | nil => exact h
  | cons k ks ih =>
    rw [foldKinds_cons]
    by_cases hf : FormatNodeKind k ∈ acc
    · rw [if_pos hf]; exact ih acc h
    · rw [if_neg hf]
      refine ih _ ?_
      simp [List.nodup_append, h, hf]

theorem foldlKinds_nodup (cs : List NodeCall) (init : List String) (h : init.Nodup) :
    (cs.foldl (fun acc c => foldKinds acc c.kinds) init).Nodup := by
  induction cs generalizing init with
  | nil => exact h
  | cons c cs ih => exact ih _ (foldKinds_nodup c.kinds init h)

theorem mem_foldlKinds (cs : List NodeCall) (init : List String) (s : String) :
    s ∈ cs.foldl (fun acc c => foldKinds acc c.kinds) init ↔
      s ∈ init ∨ ∃ c ∈ cs, ∃ k ∈ c.kinds, FormatNodeKind k = s := by
  induction cs generalizing init with
  | nil => simp
  | cons c cs ih =>
    show s ∈ cs.foldl _ (foldKinds init c.kinds) ↔ _
    rw [ih, mem_foldKinds]
    constructor
    · rintro ((h | ⟨k, hk, hf⟩) | ⟨c2, hc2, hx⟩)
      · exact Or.inl h
      · exact Or.inr ⟨c, List.mem_cons_self _ _, k, hk, hf⟩
      · exact Or.inr ⟨c2, List.mem_cons_of_mem _ hc2, hx⟩
    · rintro (h | ⟨c2, hc2, hx⟩)
      · exact Or.inl (Or.inl h)
      · rcases List.mem_cons.1 hc2 with he | hc3
        · subst he; exact Or.inl (Or.inr hx)
        · exact Or.inr ⟨c2, hc3, hx⟩

theorem ensureNode_create (gb : GraphBuilder) (kinds : List String) (X : String)
    (props : List (String × Value)) (h : alistLookup gb.nodesByID X = none) :
    alistLookup (EnsureNode gb kinds X props).nodesByID X =
      some ⟨kinds.map FormatNodeKind, X, props⟩ := by
  simp only [EnsureNode, h]
  rw [alistLookup_append, h]
  simp [alistLookup]

theorem ensureNode_update (gb : GraphBuilder) (kinds : List String) (X : String)
    (props : List (String × Value)) (n : GraphNode)
    (h : alistLookup gb.nodesByID X = some n) :
    alistLookup (EnsureNode gb kinds X props).nodesByID X =
      some ⟨foldKinds n.kinds kinds, n.id, updateProps n.properties props⟩ := by
  simp only [EnsureNode, h]
  simp [alistLookup_upsert]

theorem runEnsure_node_aux (calls : List NodeCall) (g : GraphBuilder) (X : String)
    (n : GraphNode) (hn : alistLookup g.nodesByID X = some n) :
    ∃ m : GraphNode,
      alistLookup (runEnsureCalls g X calls).nodesByID X = some m
      ∧ m.kinds = calls.foldl (fun acc c => foldKinds acc c.kinds) n.kinds
      ∧ m.properties = calls.foldl (fun acc c => updateProps acc c.props) n.properties
      ∧ m.id = n.id := by
  induction calls generalizing g n with
  | nil => exact ⟨n, hn, rfl, rfl, rfl⟩
  | cons c cs ih =>
    obtain ⟨m, hm, hk, hp, hid⟩ :=
      ih (EnsureNode g c.kinds X c.props)
        ⟨foldKinds n.kinds c.kinds, n.id, updateProps n.properties c.props⟩
        (ensureNode_update g c.kinds X c.props n hn)
    exact ⟨m, hm, hk, hp, hid⟩

/-- C2 (amended): starting from a store in which node id `X` is absent, any
nonempty sequence of `EnsureNode` calls targeting `X` leaves `X` with a
kinds list whose members are exactly the normalized (formatted) forms of
all kinds ever supplied for `X`; the list is duplicate-free provided the
normalized kinds of the first — node-creating — call are pairwise
distinct (the creating call stores its formatted kinds verbatim, without
the duplicate check that later calls perform). -/
theorem ensureNode_kinds_union (gb : GraphBuilder) (X : String) (c0 : NodeCall)
    (rest : List NodeCall)
    (hfresh : alistLookup gb.nodesByID X = none)
    (hnd : (c0.kinds.map FormatNodeKind).Nodup) :
    ∃ n : GraphNode,
      alistLookup (runEnsureCalls gb X (c0 :: rest)).nodesByID X = some n
      ∧ n.kinds.Nodup
      ∧ ∀ s, s ∈ n.kinds ↔ ∃ c ∈ c0 :: rest, ∃ k ∈ c.kinds, FormatNodeKind k = s := by
  have h0 := ensureNode_create gb c0.kinds X c0.props hfresh
  obtain ⟨m, hm, hk, _, _⟩ :=
    runEnsure_node_aux rest (EnsureNode gb c0.kinds X c0.props) X
      ⟨c0.kinds.map FormatNodeKind, X, c0.props⟩ h0
  refine ⟨m, hm, ?_, ?_⟩
  · rw [hk]; exact foldlKinds_nodup rest _ hnd
  · intro s
    rw [hk, mem_foldlKinds]
    constructor
    · rintro (hm | ⟨c2, hc2, hx⟩)
      · obtain ⟨k, hk0, hf⟩ := List.mem_map.1 hm
        exact ⟨c0, List.mem_cons_self _ _, k, hk0, hf⟩
      · exact ⟨c2, List.mem_cons_of_mem _ hc2, hx⟩
    · rintro ⟨c2, hc2, k, hk0, hf⟩
      rcases List.mem_cons.1 hc2 with he | hc3
      · subst he; exact Or.inl (List.mem_map.2 ⟨k, hk0, hf⟩)
      · exact Or.inr ⟨c2, hc3, k, hk0, hf⟩

/-- Witness for C2's amended theorem: a `User` node later ensured with a
`Group` kind ends with both formatted kinds, no duplicates. -/
theorem ensureNode_kinds_union_witness :
    alistLookup NewGraphBuilder.nodesByID "u1" = none
    ∧ ((NodeCall.mk ["User"] []).kinds.map FormatNodeKind).Nodup
    ∧ ∃ n : GraphNode,
        alistLookup (runEnsureCalls NewGraphBuilder "u1"
          [⟨["User"], []⟩, ⟨["Group"], []⟩]).nodesByID "u1" = some n
        ∧ n.kinds.Nodup
        ∧ ∀ s, s ∈ n.kinds ↔
            ∃ c ∈ [NodeCall.mk ["User"] [], NodeCall.mk ["Group"] []],
              ∃ k ∈ c.kinds, FormatNodeKind k = s :=
  ⟨by decide, by decide,
   ensureNode_kinds_union NewGraphBuilder "u1" ⟨["User"], []⟩ [⟨["Group"], []⟩]
     (by decide) (by decide)⟩

/-- Counterexample for C2 as stated: a creating call that supplies the same
kind twice (or two kinds that normalize to the same formatted string)
produces a kinds list with duplicate entries, because the creation path
formats the kinds without the duplicate check. -/
theorem ensureNode_kinds_union_counterexample :
    alistLookup (runEnsureCalls NewGraphBuilder "x" [⟨["VM", "VM"], []⟩]).nodesByID "x" =
      some ⟨["vCenter_VM", "vCenter_VM"], "x", []⟩
    ∧ ¬ (["vCenter_VM", "vCenter_VM"] : List String).Nodup := by
  exact ⟨by decide, by decide⟩

/-! ## Claim C3: property last-write-wins machinery -/

theorem updateProps_cons (e : List (String × Value)) (kv : String × Value)
    (tl : List (String × Value)) :
    updateProps e (kv :: tl) = updateProps (upsert e kv.1 kv.2) tl := rfl

theorem updateProps_lookup_notin (tl : List (String × Value))
    (e : List (String × Value)) (k : String) (h : k ∉ tl.map Prod.fst) :
    alistLookup (updateProps e tl) k = alistLookup e k := by
  induction tl generalizing e with
  | nil => rfl
  | cons kv tl ih =>
    have hk : kv.1 ≠ k := by
      intro he
      exact h (List.mem_cons.2 (Or.inl he.symm))
    have htl : k ∉ tl.map Prod.fst := fun hm => h (List.mem_cons.2 (Or.inr hm))
    rw [updateProps_cons, ih _ htl, alistLookup_upsert, if_neg hk]

theorem alistLookup_updateProps (inc : List (String × Value))
    (e : List (String × Value)) (k : String)
    (hnd : (inc.map Prod.fst).Nodup) :
    alistLookup (updateProps e inc) k =
      match alistLookup inc k with
      | some v => some v
      | none => alistLookup e k := by
  induction inc generalizing e with
  | nil => rfl
  | cons kv tl ih =>
    obtain ⟨k0, v0⟩ := kv
    rw [updateProps_cons]
    by_cases hk : k0 = k
    · have hknotin : k ∉ tl.map Prod.fst := by
        simp only [List.map_cons, List.nodup_cons] at hnd
        exact hk ▸ hnd.1
      rw [updateProps_lookup_notin tl _ k hknotin, alistLookup_upsert, if_pos hk]
      have hlk : alistLookup ((k0, v0) :: tl) k = some v0 := by
        simp [alistLookup, hk]
      rw [hlk]
    · have hnd2 : (tl.map Prod.fst).Nodup := by
        simp only [List.map_cons, List.nodup_cons] at hnd
        exact hnd.2
      rw [ih _ hnd2]
      have hlk : alistLookup ((k0, v0) :: tl) k = alistLookup tl k := by
        simp [alistLookup, hk]
      rw [hlk]
      cases alistLookup tl k with
      | some v => rfl
      | none => rw [alistLookup_upsert, if_neg hk]

theorem foldl_updateProps_lookup (cs : List NodeCall) (init : List (String × Value))
    (k : String) (hnd : ∀ c ∈ cs, (c.props.map Prod.fst).Nodup) :
    alistLookup (cs.foldl (fun acc c => updateProps acc c.props) init) k =
      cs.foldl
        (fun acc c =>
          match alistLookup c.props k with
          | some v => some v
          | none => acc)
        (alistLookup init k) := by
  induction cs generalizing init with
  | nil => rfl
  | cons c cs ih =>
    show alistLookup (cs.foldl _ (updateProps init c.props)) k = _
    rw [ih _ (fun c2 hc2 => hnd c2 (List.mem_cons.2 (Or.inr hc2))),
      alistLookup_updateProps c.props init k (hnd c (List.mem_cons_self _ _)),
      List.foldl_cons]

theorem match_option_id (o : Option Value) :
    (match o with
     | some v => some v
     | none => (none : Option Value)) = o := by
  cases o <;> rfl

/-- C3: starting from a store in which node id `X` is absent, after any
nonempty sequence of `EnsureNode` calls targeting `X` (each call's property
keys duplicate-free, as Go maps are), the final value of every property
key is the value supplied by the last call whose incoming map contained
that key — and `none` when no call supplied it, so omitting a key never
clears an earlier value. -/
theorem ensureNode_props_lastWriteWins (gb : GraphBuilder) (X : String)
    (c0 : NodeCall) (rest : List NodeCall)
    (hfresh : alistLookup gb.nodesByID X = none)
    (hnd : ∀ c ∈ c0 :: rest, (c.props.map Prod.fst).Nodup) :
    ∃ n : GraphNode,
      alistLookup (runEnsureCalls gb X (c0 :: rest)).nodesByID X = some n
      ∧ ∀ key, alistLookup n.properties key = lastSupplied key (c0 :: rest) := by
  have h0 := ensureNode_create gb c0.kinds X c0.props hfresh
  obtain ⟨m, hm, _, hp, _⟩ :=
    runEnsure_node_aux rest (EnsureNode gb c0.kinds X c0.props) X
      ⟨c0.kinds.map FormatNodeKind, X, c0.props⟩ h0
  refine ⟨m, hm, fun key => ?_⟩
  rw [hp]
  rw [foldl_updateProps_lookup rest c0.props key
    (fun c hc => hnd c (List.mem_cons.2 (Or.inr hc)))]
  show _ = (c0 :: rest).foldl _ none
  rw [List.foldl_cons, match_option_id]

/-- Witness for C3: the second call overwrites `a`, leaves `b` untouched,
and the key `c` never supplied stays absent. -/
theorem ensureNode_props_lastWriteWins_witness :
    alistLookup NewGraphBuilder.nodesByID "x" = none
    ∧ (∀ c ∈ [NodeCall.mk ["VM"] [("a", Value.str "1"), ("b", Value.str "2")],
              NodeCall.mk [] [("a", Value.str "3")]],
        (c.props.map Prod.fst).Nodup)
    ∧ ∃ n : GraphNode,
        alistLookup (runEnsureCalls NewGraphBuilder "x"
          [⟨["VM"], [("a", Value.str "1"), ("b", Value.str "2")]⟩,
           ⟨[], [("a", Value.str "3")]⟩]).nodesByID "x" = some n
        ∧ ∀ key, alistLookup n.properties key =
            lastSupplied key
              [⟨["VM"], [("a", Value.str "1"), ("b", Value.str "2")]⟩,
               ⟨[], [("a", Value.str "3")]⟩] :=
  ⟨by decide, by decide,
   ensureNode_props_lastWriteWins NewGraphBuilder "x"
     ⟨["VM"], [("a", Value.str "1"), ("b", Value.str "2")]⟩
     [⟨[], [("a", Value.str "3")]⟩] (by decide) (by decide)⟩

/-! ## Claim C8: cross-source merge machinery -/

theorem mergeProps_cons (e : List (String × Value)) (kv : String × Value)
    (tl : List (String × Value)) :
    mergeProps e (kv :: tl) =
      mergeProps (if (alistLookup e kv.1).isSome then e else upsert e kv.1 kv.2) tl := rfl

theorem mergeProps_lookup (inc e : List (String × Value)) (k : String) :
    alistLookup (mergeProps e inc) k =
      match alistLookup e k with
      | some v => some v
      | none => alistLookup inc k := by
  induction inc generalizing e with
  | nil =>
    show alistLookup e k = _
    cases alistLookup e k <;> rfl
  | cons kv tl ih =>
    obtain ⟨k0, v0⟩ := kv
    rw [mergeProps_cons]
    by_cases h : (alistLookup e k0).isSome
    · rw [if_pos h, ih]
      cases he : alistLookup e k with
      | some v => rfl
      | none =>
        have hk : k0 ≠ k := fun heq => by
          rw [heq, he] at h
          simp at h
        simp [alistLookup, hk]
    · rw [if_neg h, ih, alistLookup_upsert]
      by_cases hk : k0 = k
      · subst hk
        have he : alistLookup e k0 = none := by
          cases hx : alistLookup e k0 with
          | none => rfl
          | some v => rw [hx] at h; simp at h
        rw [if_pos rfl, he]
        simp [alistLookup]
      · rw [if_neg hk]
        have hcons : alistLookup ((k0, v0) :: tl) k = alistLookup tl k := by
          simp [alistLookup, hk]
        rw [hcons]

theorem mergeNodeStep_lookup_other (acc : List (String × GraphNode)) (n : GraphNode)
    (id : String) (h : n.id ≠ id) :
    alistLookup (mergeNodeStep acc n) id = alistLookup acc id := by
  unfold mergeNodeStep
  cases alistLookup acc n.id with
  | some existing =>
    rw [alistLookup_upsert, if_neg h]
  | none =>
    rw [alistLookup_append]
    cases hx : alistLookup acc id with
    | some v => rfl
    | none => simp [alistLookup, h]

theorem foldl_mergeNodeStep_other (others : List GraphNode)
    (acc : List (String × GraphNode)) (id : String)
    (h : ∀ n ∈ others, n.id ≠ id) :
    alistLookup (others.foldl mergeNodeStep acc) id = alistLookup acc id := by
  induction others generalizing acc with
  | nil => rfl
  | cons m ms ih =>
    show alistLookup (ms.foldl mergeNodeStep (mergeNodeStep acc m)) id = _
    rw [ih _ (fun n hn => h n (List.mem_cons.2 (Or.inr hn))),
      mergeNodeStep_lookup_other acc m id (h m (List.mem_cons_self _ _))]

theorem foldl_mergeNodeStep_lookup (others : List GraphNode)
    (acc : List (String × GraphNode)) (n : GraphNode)
    (hmem : n ∈ others) (hnd : (others.map GraphNode.id).Nodup) :
    alistLookup (others.foldl mergeNodeStep acc) n.id =
      match alistLookup acc n.id with
      | some tn => some ⟨tn.kinds, tn.id, mergeProps tn.properties n.properties⟩
      | none => some n := by
  induction others generalizing acc with
  | nil => simp at hmem
  | cons m ms ih =>
    show alistLookup (ms.foldl mergeNodeStep (mergeNodeStep acc m)) n.id = _
    simp only [List.map_cons, List.nodup_cons] at hnd
    rcases List.mem_cons.1 hmem with he | hm
    · subst he
      have hms : ∀ p ∈ ms, p.id ≠ n.id := by
        intro p hp heq
        exact hnd.1 (heq ▸ List.mem_map.2 ⟨p, hp, rfl⟩)
      rw [foldl_mergeNodeStep_other ms _ n.id hms]
      unfold mergeNodeStep
      cases hacc : alistLookup acc n.id with
      | some existing => rw [alistLookup_upsert, if_pos rfl]
      | none =>
        rw [alistLookup_append, hacc]
        simp [alistLookup]
    · have hmn : m.id ≠ n.id := by
        intro heq
        exact hnd.1 (heq ▸ List.mem_map.2 ⟨n, hm, rfl⟩)
      rw [ih _ hm hnd.2, mergeNodeStep_lookup_other acc m n.id hmn]

/-- C8: merging a second source's graph into the combined graph copies a
node present only in the other graph verbatim; for a node present in both,
the merged node keeps the target's kinds and id and, per property key, the
target's value when the target has the key and the other node's value
otherwise (first-source-wins — unlike `EnsureNode`'s last-write-wins);
and every edge of the other graph is appended as-is, with neither the
dedup-key set consulted nor updated. -/
theorem mergeSourceGraphs_spec (target : GraphBuilder) (otherNodes : List GraphNode)
    (otherEdges : List GraphEdge)
    (hnd : (otherNodes.map GraphNode.id).Nodup) :
    (∀ n ∈ otherNodes, alistLookup target.nodesByID n.id = none →
        alistLookup (mergeSourceGraphs target otherNodes otherEdges).nodesByID n.id =
          some n)
    ∧ (∀ n ∈ otherNodes, ∀ tn, alistLookup target.nodesByID n.id = some tn →
        ∃ mn, alistLookup (mergeSourceGraphs target otherNodes otherEdges).nodesByID n.id =
            some mn
          ∧ mn.kinds = tn.kinds ∧ mn.id = tn.id
          ∧ ∀ k, alistLookup mn.properties k =
              match alistLookup tn.properties k with
              | some v => some v
              | none => alistLookup n.properties k)
    ∧ (mergeSourceGraphs target otherNodes otherEdges).edges = target.edges ++ otherEdges
    ∧ (mergeSourceGraphs target otherNodes otherEdges).edgeKeys = target.edgeKeys := by
  refine ⟨?_, ?_, rfl, rfl⟩
  · intro n hn hnone
    have := foldl_mergeNodeStep_lookup otherNodes target.nodesByID n hn hnd
    rw [hnone] at this
    exact this
  · intro n hn tn hsome
    have := foldl_mergeNodeStep_lookup otherNodes target.nodesByID n hn hnd
    rw [hsome] at this
    exact ⟨⟨tn.kinds, tn.id, mergeProps tn.properties n.properties⟩, this, rfl, rfl,
      fun k => mergeProps_lookup n.properties tn.properties k⟩

/-- Witness for C8 at a concrete pair of sources: node `a` is present in
both (target keeps its `name`, gains the other's extra key), node `b` only
in the other; the other's edge is appended although an identical edge is
already present. -/
theorem mergeSourceGraphs_spec_witness :
    ((([⟨["vCenter_VM"], "a", [("name", Value.str "Real"), ("y", Value.str "2")]⟩,
        ⟨["vCenter_Folder"], "b", []⟩] : List GraphNode).map GraphNode.id).Nodup)
    ∧ (∀ n ∈ ([⟨["vCenter_VM"], "a", [("name", Value.str "Real"), ("y", Value.str "2")]⟩,
        ⟨["vCenter_Folder"], "b", []⟩] : List GraphNode),
        alistLookup (GraphBuilder.mk
            [("a", ⟨["vCenter_VM"], "a", [("name", Value.str "Nice"), ("x", Value.str "1")]⟩)]
            [⟨"vCenter_Contains", "a", "b", []⟩] ["CONTAINS:a:b:"]).nodesByID n.id = none →
        alistLookup (mergeSourceGraphs (GraphBuilder.mk
            [("a", ⟨["vCenter_VM"], "a", [("name", Value.str "Nice"), ("x", Value.str "1")]⟩)]
            [⟨"vCenter_Contains", "a", "b", []⟩] ["CONTAINS:a:b:"])
          [⟨["vCenter_VM"], "a", [("name", Value.str "Real"), ("y", Value.str "2")]⟩,
           ⟨["vCenter_Folder"], "b", []⟩]
          [⟨"vCenter_Contains", "a", "b", []⟩]).nodesByID n.id = some n)
    ∧ (∀ n ∈ ([⟨["vCenter_VM"], "a", [("name", Value.str "Real"), ("y", Value.str "2")]⟩,
        ⟨["vCenter_Folder"], "b", []⟩] : List GraphNode),
        ∀ tn, alistLookup (GraphBuilder.mk
            [("a", ⟨["vCenter_VM"], "a", [("name", Value.str "Nice"), ("x", Value.str "1")]⟩)]
            [⟨"vCenter_Contains", "a", "b", []⟩] ["CONTAINS:a:b:"]).nodesByID n.id = some tn →
        ∃ mn, alistLookup (mergeSourceGraphs (GraphBuilder.mk
            [("a", ⟨["vCenter_VM"], "a", [("name", Value.str "Nice"), ("x", Value.str "1")]⟩)]
            [⟨"vCenter_Contains", "a", "b", []⟩] ["CONTAINS:a:b:"])
          [⟨["vCenter_VM"], "a", [("name", Value.str "Real"), ("y", Value.str "2")]⟩,
           ⟨["vCenter_Folder"], "b", []⟩]
          [⟨"vCenter_Contains", "a", "b", []⟩]).nodesByID n.id = some mn
          ∧ mn.kinds = tn.kinds ∧ mn.id = tn.id
          ∧ ∀ k, alistLookup mn.properties k =
              match alistLookup tn.properties k with
              | some v => some v
              | none => alistLookup n.properties k)
    ∧ (mergeSourceGraphs (GraphBuilder.mk
          [("a", ⟨["vCenter_VM"], "a", [("name", Value.str "Nice"), ("x", Value.str "1")]⟩)]
          [⟨"vCenter_Contains", "a", "b", []⟩] ["CONTAINS:a:b:"])
        [⟨["vCenter_VM"], "a", [("name", Value.str "Real"), ("y", Value.str "2")]⟩,
         ⟨["vCenter_Folder"], "b", []⟩]
        [⟨"vCenter_Contains", "a", "b", []⟩]).edges =
      [⟨"vCenter_Contains", "a", "b", []⟩] ++ [⟨"vCenter_Contains", "a", "b", []⟩] :=
  ⟨by decide,
   (mergeSourceGraphs_spec _ _ _ (by decide)).1,
   (mergeSourceGraphs_spec _ _ _ (by decide)).2.1,
   (mergeSourceGraphs_spec _ _ _ (by decide)).2.2.1⟩

/-! ## Claim C7: domain-map and sync-edge machinery -/

theorem foldDomain_isSome (names : List String) (m : List (String × String)) (K : String) :
    (alistLookup (names.foldl (fun m nm => upsert m (netbiosOf nm) (upperS nm)) m) K).isSome
      ↔ (alistLookup m K).isSome ∨ ∃ nm ∈ names, netbiosOf nm = K := by
  induction names generalizing m with
  | nil => simp
  | cons nm names ih =>
    show (alistLookup (names.foldl _ (upsert m (netbiosOf nm) (upperS nm))) K).isSome ↔ _
    rw [ih]
    by_cases h : netbiosOf nm = K
    · rw [alistLookup_upsert, if_pos h]
      simp only [Option.isSome_some, List.exists_mem_cons_iff]
      constructor
      · intro _
        exact Or.inr (Or.inl h)
      · intro _
        exact Or.inl trivial
    · rw [alistLookup_upsert, if_neg h]
      simp only [List.exists_mem_cons_iff]
      constructor
      · rintro (hs | he)
        · exact Or.inl hs
        · exact Or.inr (Or.inr he)
      · rintro (hs | (he | he))
        · exact Or.inl hs
        · exact absurd he h
        · exact Or.inr he

theorem foldDomain_some (names : List String) (m : List (String × String)) (K v : String)
    (h : alistLookup (names.foldl (fun m nm => upsert m (netbiosOf nm) (upperS nm)) m) K =
      some v) :
    alistLookup m K = some v ∨ ∃ nm ∈ names, netbiosOf nm = K ∧ upperS nm = v := by
  induction names generalizing m with
  | nil => exact Or.inl h
  | cons nm names ih =>
    rcases ih (upsert m (netbiosOf nm) (upperS nm)) h with hu | ⟨nm2, hnm2, he⟩
    · rw [alistLookup_upsert] at hu
      by_cases hk : netbiosOf nm = K
      · rw [if_pos hk] at hu
        cases hu
        exact Or.inr ⟨nm, List.mem_cons_self _ _, hk, rfl⟩
      · rw [if_neg hk] at hu
        exact Or.inl hu
    · exact Or.inr ⟨nm2, List.mem_cons_of_mem _ hnm2, he⟩

theorem getDomainMap_isSome (names : List String) (K : String) :
    (alistLookup (getDomainMap names) K).isSome ↔ ∃ nm ∈ names, netbiosOf nm = K := by
  rw [getDomainMap, foldDomain_isSome]
  simp [alistLookup]

theorem getDomainMap_some (names : List String) (K v : String)
    (h : alistLookup (getDomainMap names) K = some v) :
    ∃ nm ∈ names, netbiosOf nm = K ∧ upperS nm = v := by
  rcases foldDomain_some names [] K v h with hu | he
  · simp [alistLookup] at hu
  · exact he

/-- C7 (amended): for a node of the loaded graph, `Processor.Run` emits a
sync edge if and only if the node carries the `vCenter_User` or
`vCenter_Group` kind, its `name` and `domain` properties are nonempty
strings, and the uppercased domain equals the first dot-delimited label of
some candidate FQDN (`name` — not `username` — is the second emptiness
guard: a principal with empty `username` but nonempty `name` still gets an
edge).  Every emitted edge goes from the foreign id
`UPPER(username) ++ "@" ++ UPPER(fqdn)` of a matching candidate, is
matched by the declared `name` join key, and ends at the node's id. -/
theorem syncEdges_spec (names : List String) (n : PNode) :
    (syncEdgesForNode (getDomainMap names) n ≠ [] ↔
      (isUserNode n = true ∨ isGroupNode n = true)
      ∧ getStringProp n.properties "name" ≠ ""
      ∧ getStringProp n.properties "domain" ≠ ""
      ∧ ∃ nm ∈ names, netbiosOf nm = upperS (getStringProp n.properties "domain"))
    ∧ ∀ e ∈ syncEdgesForNode (getDomainMap names) n,
        e.startMatchBy = "name" ∧ e.endValue = n.id ∧ e.endMatchBy = ""
        ∧ ∃ nm ∈ names,
            netbiosOf nm = upperS (getStringProp n.properties "domain")
            ∧ e.startValue =
                upperS (getStringProp n.properties "username") ++ "@" ++ upperS nm := by
  by_cases hug : ¬ isUserNode n ∧ ¬ isGroupNode n
  · have hempty : syncEdgesForNode (getDomainMap names) n = [] := by
      simp [syncEdgesForNode, hug]
    rw [hempty]
    constructor
    · simp only [ne_eq, not_true_eq_false, false_iff]
      rintro ⟨hk, _⟩
      rcases hk with hk | hk
      · exact absurd hk hug.1
      · exact absurd hk hug.2
    · intro e he
      simp at he
  · by_cases hnd : getStringProp n.properties "name" = "" ∨
      getStringProp n.properties "domain" = ""
    · have hempty : syncEdgesForNode (getDomainMap names) n = [] := by
        simp only [syncEdgesForNode, if_neg hug]
        rw [if_pos hnd]
      rw [hempty]
      constructor
      · simp only [ne_eq, not_true_eq_false, false_iff]
        rintro ⟨_, hn, hd, _⟩
        rcases hnd with hnd | hnd
        · exact hn hnd
        · exact hd hnd
      · intro e he
        simp at he
    · cases hdm : alistLookup (getDomainMap names)
        (upperS (getStringProp n.properties "domain")) with
      | none =>
        have hempty : syncEdgesForNode (getDomainMap names) n = [] := by
          simp only [syncEdgesForNode, if_neg hug]
          rw [if_neg hnd, hdm]
        rw [hempty]
        constructor
        · simp only [ne_eq, not_true_eq_false, false_iff]
          rintro ⟨_, _, _, hex⟩
          have := (getDomainMap_isSome names
            (upperS (getStringProp n.properties "domain"))).2 hex
          rw [hdm] at this
          simp at this
        · intro e he
          simp at he
      | some fqdn =>
        obtain ⟨nm, hnm, hnb, hup⟩ := getDomainMap_some names _ fqdn hdm
        have hedges : syncEdgesForNode (getDomainMap names) n =
            (if isUserNode n then
              [⟨"SyncsTovCenterUser",
                upperS (getStringProp n.properties "username") ++ "@" ++ fqdn, "name",
                n.id, ""⟩]
            else
              [⟨"SyncsTovCenterGroup",
                upperS (getStringProp n.properties "username") ++ "@" ++ fqdn, "name",
                n.id, ""⟩]) := by
          simp only [syncEdgesForNode, if_neg hug]
          rw [if_neg hnd, hdm]
        constructor
        · rw [hedges]
          constructor
          · intro _
            refine ⟨?_, ?_, ?_, nm, hnm, hnb⟩
            · rcases Decidable.not_and_iff_or_not.1 hug with hk | hk
              · exact Or.inl (by simpa using hk)
              · exact Or.inr (by simpa using hk)
            · exact fun he => hnd (Or.inl he)
            · exact fun he => hnd (Or.inr he)
          · intro _
            split <;> simp
        · intro e he
          rw [hedges] at he
          have hstart : e = ⟨"SyncsTovCenterUser",
                upperS (getStringProp n.properties "username") ++ "@" ++ fqdn, "name",
                n.id, ""⟩
              ∨ e = ⟨"SyncsTovCenterGroup",
                upperS (getStringProp n.properties "username") ++ "@" ++ fqdn, "name",
                n.id, ""⟩ := by
            by_cases hu : isUserNode n
            · rw [if_pos hu] at he
              exact Or.inl (List.mem_singleton.1 he)
            · rw [if_neg hu] at he
              exact Or.inr (List.mem_singleton.1 he)
          rcases hstart with he2 | he2 <;>
            exact he2 ▸ ⟨rfl, rfl, rfl, nm, hnm, hnb, by rw [hup]⟩

/-- Witness for C7's amended theorem: the `CORP` fragment matches
`corp.local` and yields the foreign id `ADMIN@CORP.LOCAL`. -/
theorem syncEdges_spec_witness :
    (⟨"SyncsTovCenterUser", "ADMIN@CORP.LOCAL", "name", "user:h:CORP\\admin", ""⟩ : SyncEdge) ∈
      syncEdgesForNode (getDomainMap ["corp.local"])
        ⟨["vCenter_User"], "user:h:CORP\\admin",
          [("name", Value.str "CORP\\admin"), ("username", Value.str "admin"),
           ("domain", Value.str "CORP")]⟩
    ∧ ((⟨"SyncsTovCenterUser", "ADMIN@CORP.LOCAL", "name", "user:h:CORP\\admin", ""⟩ :
          SyncEdge).startMatchBy = "name"
       ∧ (⟨"SyncsTovCenterUser", "ADMIN@CORP.LOCAL", "name", "user:h:CORP\\admin", ""⟩ :
          SyncEdge).endValue = "user:h:CORP\\admin"
       ∧ (⟨"SyncsTovCenterUser", "ADMIN@CORP.LOCAL", "name", "user:h:CORP\\admin", ""⟩ :
          SyncEdge).endMatchBy = ""
       ∧ ∃ nm ∈ ["corp.local"],
           netbiosOf nm = upperS (getStringProp
             [("name", Value.str "CORP\\admin"), ("username", Value.str "admin"),
              ("domain", Value.str "CORP")] "domain")
           ∧ (⟨"SyncsTovCenterUser", "ADMIN@CORP.LOCAL", "name", "user:h:CORP\\admin", ""⟩ :
              SyncEdge).startValue =
               upperS (getStringProp
                 [("name", Value.str "CORP\\admin"), ("username", Value.str "admin"),
                  ("domain", Value.str "CORP")] "username") ++ "@" ++ upperS nm) :=
  ⟨by decide,
   (syncEdges_spec ["corp.local"]
     ⟨["vCenter_User"], "user:h:CORP\\admin",
       [("name", Value.str "CORP\\admin"), ("username", Value.str "admin"),
        ("domain", Value.str "CORP")]⟩).2 _ (by decide)⟩

/-- Counterexample for C7 as stated: a `User` node whose `username`
property is empty but whose `name` property is nonempty still produces a
sync edge (from the foreign id `"@CORP.LOCAL"`), because the code's
emptiness guard checks the `name` property, not `username`. -/
theorem syncEdges_spec_counterexample :
    getStringProp [("name", Value.str "CORP\\"), ("username", Value.str ""),
      ("domain", Value.str "CORP")] "username" = ""
    ∧ syncEdgesForNode (getDomainMap ["corp.local"])
        ⟨["vCenter_User"], "user:h:CORP\\",
          [("name", Value.str "CORP\\"), ("username", Value.str ""),
           ("domain", Value.str "CORP")]⟩ =
      [⟨"SyncsTovCenterUser", "@CORP.LOCAL", "name", "user:h:CORP\\", ""⟩] :=
  ⟨by decide, by decide⟩

/-! ## Claim C6 -/

/-- C6: request signing is deterministic in the key secret, method,
path-plus-query, body bytes and the first 13 characters of the timestamp —
two timestamps sharing their first 13 characters give the same `d2` and the
same `Signature` header value for any HMAC primitive; and with no body,
`d3` is still computed as an HMAC keyed by `d2` over zero input bytes,
never skipped. -/
theorem signRequest_determinism
    (hmac : List Nat → List Nat → List Nat) (keyId secret method path rawQuery : String)
    (body : Option (List Nat)) (ts1 ts2 : String)
    (h : ts1.toList.take 13 = ts2.toList.take 13) :
    (computeD2 hmac secret method (signedUri path rawQuery) ts1 =
        computeD2 hmac secret method (signedUri path rawQuery) ts2
      ∧ (signRequest hmac keyId secret method path rawQuery body ts1).map
          SignedHeaders.signature =
        (signRequest hmac keyId secret method path rawQuery body ts2).map
          SignedHeaders.signature)
    ∧ ∀ d2 : List Nat, computeD3 hmac d2 none = hmac d2 [] := by
  have hd2 : computeD2 hmac secret method (signedUri path rawQuery) ts1 =
      computeD2 hmac secret method (signedUri path rawQuery) ts2 := by
    unfold computeD2
    rw [h]
  refine ⟨⟨hd2, ?_⟩, fun d2 => rfl⟩
  have hlen : ts1.toList.length < 13 ↔ ts2.toList.length < 13 := by
    have hmineq := congrArg List.length h
    simp only [List.length_take] at hmineq
    omega
  unfold signRequest
  by_cases h1 : ts1.toList.length < 13
  · rw [if_pos h1, if_pos (hlen.1 h1)]
  · rw [if_neg h1, if_neg (fun h2 => h1 (hlen.2 h2))]
    simp only [Option.map_some']
    rw [hd2]

/-- Witness for C6 at the spec's concrete example: secret `"abc"`, method
`"GET"`, path `"/api/v2/available-domains"`, empty body, two timestamps of
the same hour, and a concrete HMAC stand-in. -/
theorem signRequest_determinism_witness :
    ("2020-12-01T23:00:00Z".toList.take 13 = "2020-12-01T23:45:10Z".toList.take 13)
    ∧ ((computeD2 (fun key msg => key.length :: msg) "abc" "GET"
          (signedUri "/api/v2/available-domains" "") "2020-12-01T23:00:00Z" =
        computeD2 (fun key msg => key.length :: msg) "abc" "GET"
          (signedUri "/api/v2/available-domains" "") "2020-12-01T23:45:10Z"
       ∧ (signRequest (fun key msg => key.length :: msg) "kid" "abc" "GET"
            "/api/v2/available-domains" "" none "2020-12-01T23:00:00Z").map
            SignedHeaders.signature =
          (signRequest (fun key msg => key.length :: msg) "kid" "abc" "GET"
            "/api/v2/available-domains" "" none "2020-12-01T23:45:10Z").map
            SignedHeaders.signature)
      ∧ ∀ d2 : List Nat, computeD3 (fun key msg => key.length :: msg) d2 none =
          (fun key msg => key.length :: msg) d2 []) :=
  ⟨by decide,
   signRequest_determinism (fun key msg => key.length :: msg) "kid" "abc" "GET"
     "/api/v2/available-domains" "" none "2020-12-01T23:00:00Z" "2020-12-01T23:45:10Z"
     (by decide)⟩

/-! ## Claim C1: canonical props key and dedup machinery -/

theorem propsToKey_perm (p1 p2 : List (String × Value)) (hp : p1.Perm p2)
    (hnd : (p1.map Prod.fst).Nodup) : propsToKey p1 = propsToKey p2 := by
  have hfun : (fun k => k ++ ":" ++ goFormat ((alistLookup p1 k).getD (.str ""))) =
      (fun k => k ++ ":" ++ goFormat ((alistLookup p2 k).getD (.str ""))) :=
    funext fun k => by rw [alistLookup_eq_of_perm p1 p2 hp hnd k]
  have hkeys : sortStrings (p1.map Prod.fst) = sortStrings (p2.map Prod.fst) :=
    sortStrings_eq_of_perm _ _ (hp.map _)
  have hemp : p1.isEmpty = p2.isEmpty := by
    have hl := hp.length_eq
    cases p1 <;> cases p2 <;> simp_all
  cases he : p1.isEmpty with
  | true =>
    have he2 : p2.isEmpty = true := hemp.symm.trans he
    simp [propsToKey, he, he2]
  | false =>
    have he2 : p2.isEmpty = false := hemp.symm.trans he
    simp only [propsToKey, he, he2, Bool.false_eq_true, if_false]
    rw [hkeys, hfun]

theorem sum_len_le_parts (f g : String → String)
    (hother : ∀ k, k ≠ "propagate" → f k = g k)
    (hprop : (f "propagate").length ≤ (g "propagate").length) :
    ∀ ks : List String,
      ((ks.map f).map String.length).sum ≤ ((ks.map g).map String.length).sum := by
  intro ks
  induction ks with
  | nil => simp
  | cons k ks ih =>
    simp only [List.map_cons, List.sum_cons]
    by_cases hk : k = "propagate"
    · subst hk
      omega
    · rw [hother k hk]
      omega

theorem sum_len_lt_parts (f g : String → String)
    (hother : ∀ k, k ≠ "propagate" → f k = g k)
    (hprop : (f "propagate").length < (g "propagate").length) :
    ∀ ks : List String, "propagate" ∈ ks →
      ((ks.map f).map String.length).sum < ((ks.map g).map String.length).sum := by
  intro ks hmem
  induction ks with
  | nil => simp at hmem
  | cons k ks ih =>
    simp only [List.map_cons, List.sum_cons]
    rcases List.mem_cons.1 hmem with he | hm
    · subst he
      have hrest := sum_len_le_parts f g hother (le_of_lt hprop) ks
      omega
    · have hle : (f k).length ≤ (g k).length := by
        by_cases hk : k = "propagate"
        · subst hk
          omega
        · rw [hother k hk]
      have htail := ih hm
      omega

theorem propsToKey_propagate_len_lt (rest : List (String × Value)) :
    (propsToKey (("propagate", Value.bool true) :: rest)).length <
      (propsToKey (("propagate", Value.bool false) :: rest)).length := by
  have hunfT : propsToKey (("propagate", Value.bool true) :: rest) =
      goJoin "|" ((sortStrings ((("propagate", Value.bool true) :: rest).map Prod.fst)).map
        (fun k => k ++ ":" ++
          goFormat ((alistLookup (("propagate", Value.bool true) :: rest) k).getD (.str "")))) := by
    simp [propsToKey]
  have hunfF : propsToKey (("propagate", Value.bool false) :: rest) =
      goJoin "|" ((sortStrings ((("propagate", Value.bool false) :: rest).map Prod.fst)).map
        (fun k => k ++ ":" ++
          goFormat ((alistLookup (("propagate", Value.bool false) :: rest) k).getD (.str "")))) := by
    simp [propsToKey]
  have hmapfst : (("propagate", Value.bool false) :: rest).map Prod.fst =
      (("propagate", Value.bool true) :: rest).map Prod.fst := rfl
  rw [hunfT, hunfF, hmapfst, goJoin_length, goJoin_length, List.length_map, List.length_map]
  have hof : ∀ k, k ≠ "propagate" →
      (fun k => k ++ ":" ++
        goFormat ((alistLookup (("propagate", Value.bool true) :: rest) k).getD (.str ""))) k =
      (fun k => k ++ ":" ++
        goFormat ((alistLookup (("propagate", Value.bool false) :: rest) k).getD (.str ""))) k := by
    intro k hk
    have hk2 : ¬ ("propagate" : String) = k := fun he => hk he.symm
    simp only [alistLookup, if_neg hk2]
  have hpt :
      ((fun k => k ++ ":" ++
        goFormat ((alistLookup (("propagate", Value.bool true) :: rest) k).getD (.str "")))
          "propagate").length <
      ((fun k => k ++ ":" ++
        goFormat ((alistLookup (("propagate", Value.bool false) :: rest) k).getD (.str "")))
          "propagate").length := by
    have h1 : alistLookup (("propagate", Value.bool true) :: rest) "propagate" =
        some (Value.bool true) := by
      simp [alistLookup]
    have h2 : alistLookup (("propagate", Value.bool false) :: rest) "propagate" =
        some (Value.bool false) := by
      simp [alistLookup]
    simp only [h1, h2, Option.getD_some]
    decide
  have hmem : "propagate" ∈
      sortStrings ((("propagate", Value.bool true) :: rest).map Prod.fst) :=
    (sortStrings_perm _).mem_iff.2 (by simp)
  have hlt := sum_len_lt_parts _ _ hof hpt _ hmem
  omega

theorem edgeKey_propagate_ne (k st en : String) (rest : List (String × Value)) :
    edgeKey k st en (("propagate", Value.bool true) :: rest) ≠
      edgeKey k st en (("propagate", Value.bool false) :: rest) := by
  intro hcontra
  have hlen := congrArg String.length hcontra
  simp only [edgeKey, String.length_append] at hlen
  have hlt := propsToKey_propagate_len_lt rest
  omega

theorem addEdge_skip (g : GraphBuilder) (k st en : String)
    (p : List (String × Value)) (h : edgeKey k st en p ∈ g.edgeKeys) :
    AddEdge g k st en p = g := by
  simp only [AddEdge]
  rw [if_pos h]

theorem addEdge_append (g : GraphBuilder) (k st en : String)
    (p : List (String × Value)) (h : edgeKey k st en p ∉ g.edgeKeys) :
    AddEdge g k st en p =
      { g with
        edges := g.edges ++ [⟨FormatEdgeKind k, st, en, p⟩],
        edgeKeys := edgeKey k st en p :: g.edgeKeys } := by
  simp only [AddEdge]
  rw [if_neg h]

/-- C1 (amended): on a store that has not yet seen the corresponding dedup
keys, two `AddEdge` calls with equal kind, start and end whose property
maps contain exactly the same key-value pairs (in any order, keys
duplicate-free) append exactly one edge — the second call leaves the store
unchanged; and two `AddEdge` calls whose properties differ only in the
`propagate` value append two distinct edges.  On a store that has already
seen the dedup key, both calls are no-ops (see the counterexample), which
is the at-most-one-edge-per-key reading the claim needs. -/
theorem addEdge_dedup :
    (∀ (gb : GraphBuilder) (k st en : String) (p1 p2 : List (String × Value)),
      p1.Perm p2 → (p1.map Prod.fst).Nodup →
      edgeKey k st en p1 ∉ gb.edgeKeys →
      AddEdge (AddEdge gb k st en p1) k st en p2 = AddEdge gb k st en p1
      ∧ (AddEdge gb k st en p1).edges.length = gb.edges.length + 1)
    ∧ (∀ (gb : GraphBuilder) (k st en : String) (rest : List (String × Value)),
      edgeKey k st en (("propagate", Value.bool true) :: rest) ∉ gb.edgeKeys →
      edgeKey k st en (("propagate", Value.bool false) :: rest) ∉ gb.edgeKeys →
      (AddEdge (AddEdge gb k st en (("propagate", Value.bool true) :: rest)) k st en
          (("propagate", Value.bool false) :: rest)).edges =
        gb.edges ++ [⟨FormatEdgeKind k, st, en, ("propagate", Value.bool true) :: rest⟩,
                     ⟨FormatEdgeKind k, st, en, ("propagate", Value.bool false) :: rest⟩]
      ∧ (⟨FormatEdgeKind k, st, en, ("propagate", Value.bool true) :: rest⟩ : GraphEdge) ≠
          ⟨FormatEdgeKind k, st, en, ("propagate", Value.bool false) :: rest⟩) := by
  constructor
  · intro gb k st en p1 p2 hp hnd hfresh
    have hek : edgeKey k st en p2 = edgeKey k st en p1 := by
      unfold edgeKey
      rw [propsToKey_perm p1 p2 hp hnd]
    have hadd1 := addEdge_append gb k st en p1 hfresh
    constructor
    · refine addEdge_skip _ k st en p2 ?_
      rw [hadd1, hek]
      exact List.mem_cons_self _ _
    · rw [hadd1]
      simp
  · intro gb k st en rest hf1 hf2
    have hadd1 := addEdge_append gb k st en (("propagate", Value.bool true) :: rest) hf1
    have hmem2 : edgeKey k st en (("propagate", Value.bool false) :: rest) ∉
        (AddEdge gb k st en (("propagate", Value.bool true) :: rest)).edgeKeys := by
      rw [hadd1]
      intro hmem
      rcases List.mem_cons.1 hmem with he | hm
      · exact edgeKey_propagate_ne k st en rest he.symm
      · exact hf2 hm
    have hadd2 := addEdge_append _ k st en (("propagate", Value.bool false) :: rest) hmem2
    constructor
    · rw [hadd2, hadd1]
      simp
    · intro hcontra
      have := congrArg GraphEdge.properties hcontra
      simp at this

/-- Witness for C1's amended theorem: permuted but equal property maps
append one edge, and a `propagate` flip appends two distinct edges. -/
theorem addEdge_dedup_witness :
    (([("roleId", Value.int 5), ("propagate", Value.bool true)] :
        List (String × Value)).Perm
        [("propagate", Value.bool true), ("roleId", Value.int 5)]
      ∧ (([("roleId", Value.int 5), ("propagate", Value.bool true)] :
          List (String × Value)).map Prod.fst).Nodup
      ∧ edgeKey "HAS_PERMISSION" "user:h:a" "vm:h:v"
          [("roleId", Value.int 5), ("propagate", Value.bool true)] ∉
          NewGraphBuilder.edgeKeys
      ∧ (AddEdge (AddEdge NewGraphBuilder "HAS_PERMISSION" "user:h:a" "vm:h:v"
            [("roleId", Value.int 5), ("propagate", Value.bool true)])
          "HAS_PERMISSION" "user:h:a" "vm:h:v"
          [("propagate", Value.bool true), ("roleId", Value.int 5)] =
        AddEdge NewGraphBuilder "HAS_PERMISSION" "user:h:a" "vm:h:v"
          [("roleId", Value.int 5), ("propagate", Value.bool true)]
        ∧ (AddEdge NewGraphBuilder "HAS_PERMISSION" "user:h:a" "vm:h:v"
            [("roleId", Value.int 5), ("propagate", Value.bool true)]).edges.length =
          NewGraphBuilder.edges.length + 1))
    ∧ ((AddEdge (AddEdge NewGraphBuilder "HAS_PERMISSION" "user:h:a" "vm:h:v"
          (("propagate", Value.bool true) :: [("roleId", Value.int 5)]))
        "HAS_PERMISSION" "user:h:a" "vm:h:v"
        (("propagate", Value.bool false) :: [("roleId", Value.int 5)])).edges =
      NewGraphBuilder.edges ++
        [⟨FormatEdgeKind "HAS_PERMISSION", "user:h:a", "vm:h:v",
          ("propagate", Value.bool true) :: [("roleId", Value.int 5)]⟩,
         ⟨FormatEdgeKind "HAS_PERMISSION", "user:h:a", "vm:h:v",
          ("propagate", Value.bool false) :: [("roleId", Value.int 5)]⟩]
      ∧ (⟨FormatEdgeKind "HAS_PERMISSION", "user:h:a", "vm:h:v",
          ("propagate", Value.bool true) :: [("roleId", Value.int 5)]⟩ : GraphEdge) ≠
        ⟨FormatEdgeKind "HAS_PERMISSION", "user:h:a", "vm:h:v",
          ("propagate", Value.bool false) :: [("roleId", Value.int 5)]⟩) :=
  ⟨⟨by decide, by decide, by decide,
    addEdge_dedup.1 NewGraphBuilder "HAS_PERMISSION" "user:h:a" "vm:h:v"
      [("roleId", Value.int 5), ("propagate", Value.bool true)]
      [("propagate", Value.bool true), ("roleId", Value.int 5)]
      (by decide) (by decide) (by decide)⟩,
   addEdge_dedup.2 NewGraphBuilder "HAS_PERMISSION" "user:h:a" "vm:h:v"
     [("roleId", Value.int 5)] (by decide) (by decide)⟩

/-- Counterexample for C1 as stated: on a store whose dedup-key set already
contains the key (here: after an identical earlier `AddEdge`), the same
two calls append zero edges, not exactly one — the claim's "for every
graph store state" fails on states that have seen the key. -/
theorem addEdge_dedup_counterexample :
    (AddEdge (AddEdge (AddEdge NewGraphBuilder "A" "b" "c" []) "A" "b" "c" [])
        "A" "b" "c" []).edges.length =
      (AddEdge NewGraphBuilder "A" "b" "c" []).edges.length
    ∧ ¬ ((AddEdge (AddEdge (AddEdge NewGraphBuilder "A" "b" "c" []) "A" "b" "c" [])
        "A" "b" "c" []).edges.length =
      (AddEdge NewGraphBuilder "A" "b" "c" []).edges.length + 1) :=
  ⟨by decide, by decide⟩

end VCenterHound
